import Mathlib

set_option maxRecDepth 100000

/-!
Verification development for the meter-data ingestion engine in `app.py`.

The engine reads XML files in two dialects (ESL, with absolute register
readings, and SDAT, with relative interval volumes), merges them into a
per-meter time series store, and derives consumption diffs.

Modelling conventions:
* Python floats are modelled by `EFloat`: either NaN, plus or minus
  infinity, or a finite rational. Rounding of finite arithmetic is
  abstracted away (exact rationals); the special values NaN and the
  infinities, which the source manipulates explicitly, are modelled
  faithfully (`float("nan")` defaults, the `diff == diff` NaN test,
  `float("inf")` reachable from the text `"inf"`).
* Timezone-aware datetimes are modelled by their UTC epoch value in
  microseconds (`Int`), which is exactly how the source uses them:
  every datetime is normalized to UTC before use as a series key.
* XML documents are modelled post-parse, as element trees in the shape
  `xml.etree.ElementTree` delivers them: a namespace-prefixed element in
  the concrete file appears in the parsed tree with a
  `\x7buri\x7dLocalName` tag (ElementTree resolves prefixes at parse
  time), and an ill-formed file is the `malformed` case.
* Python exceptions are modelled with `Except PyErr`; a run that raises
  is an `Except.error` result.
-/

/-- Euclidean gcd with an explicit fuel argument, structurally recursive
so that it reduces inside the kernel; the fuel `m + 1` always suffices
because the first argument strictly decreases at every step. -/
def natGcdF : Nat → Nat → Nat → Nat
  | 0, _, n => n
  | _ + 1, 0, n => n
  | fuel + 1, m + 1, n => natGcdF fuel (n % (m + 1)) (m + 1)

/-- Greatest common divisor via the fueled Euclid. -/
def natGcd (m n : Nat) : Nat := natGcdF (m + 1) m n

/-- An exact rational with nonnegative denominator, used as the model of
a finite Python float value. Construction through `mkPyRat` keeps it in
lowest terms so that value equality is representation equality. -/
structure PyRat where
  num : Int
  den : Nat
deriving DecidableEq, Repr

/-- Build a rational in lowest terms (a zero denominator is unreachable
in the engine and mapped to zero). -/
def mkPyRat (n : Int) (d : Nat) : PyRat :=
  if d = 0 then ⟨0, 1⟩
  else
    let g := natGcd n.natAbs d
    ⟨n / (Int.ofNat g), d / g⟩

/-- Exact rational addition. -/
def PyRat.add (a b : PyRat) : PyRat :=
  mkPyRat (a.num * Int.ofNat b.den + b.num * Int.ofNat a.den) (a.den * b.den)

/-- Exact rational subtraction. -/
def PyRat.sub (a b : PyRat) : PyRat :=
  mkPyRat (a.num * Int.ofNat b.den - b.num * Int.ofNat a.den) (a.den * b.den)

/-- Rational negation. -/
def PyRat.neg (a : PyRat) : PyRat := ⟨-a.num, a.den⟩

/-- Whether the rational is strictly negative. -/
def PyRat.isNeg (a : PyRat) : Bool := a.num < 0

/-- Model of a Python float as used by the engine: NaN, infinities, or a
finite value (rationals abstract the finite doubles). -/
inductive EFloat where
  | nan : EFloat
  | inf : EFloat
  | ninf : EFloat
  | fin : PyRat → EFloat
deriving DecidableEq, Repr

/-- Python float addition, restricted to the cases the engine can reach. -/
def EFloat.add : EFloat → EFloat → EFloat
  | .nan, _ => .nan
  | _, .nan => .nan
  | .inf, .ninf => .nan
  | .ninf, .inf => .nan
  | .inf, _ => .inf
  | _, .inf => .inf
  | .ninf, _ => .ninf
  | _, .ninf => .ninf
  | .fin a, .fin b => .fin (a.add b)

/-- Python float subtraction, restricted to the cases the engine can reach. -/
def EFloat.sub : EFloat → EFloat → EFloat
  | .nan, _ => .nan
  | _, .nan => .nan
  | .inf, .inf => .nan
  | .ninf, .ninf => .nan
  | .inf, _ => .inf
  | _, .inf => .ninf
  | .ninf, _ => .ninf
  | _, .ninf => .inf
  | .fin a, .fin b => .fin (a.sub b)

/-- Python `x == x` on a float: false exactly for NaN. -/
def EFloat.selfEq : EFloat → Bool
  | .nan => false
  | _ => true

/-- Python `x < 0` on a float: false for NaN, true for minus infinity. -/
def EFloat.lt0 : EFloat → Bool
  | .nan => false
  | .inf => false
  | .ninf => true
  | .fin a => a.isNeg

/-- Python exceptions the engine can raise: `ValueError` from timestamp or
number parsing, `SyntaxError` from an ElementTree path with a namespace
prefix and no prefix map. -/
inductive PyErr where
  | valueError : PyErr
  | syntaxError : PyErr
deriving DecidableEq, Repr

/-- Whether the list `pat` occurs as a contiguous block at the head of `l`. -/
def listStarts [DecidableEq α] : List α → List α → Bool
  | [], _ => true
  | _ :: _, [] => false
  | a :: as, b :: bs => if a = b then listStarts as bs else false

/-- Whether the list `pat` occurs as a contiguous block anywhere in `l`. -/
def listHasBlock [DecidableEq α] (pat : List α) : List α → Bool
  | [] => pat.isEmpty
  | b :: bs => listStarts pat (b :: bs) || listHasBlock pat bs

/-- Python `pat in s` on strings: substring containment. -/
def containsSub (s pat : String) : Bool :=
  listHasBlock pat.toList s.toList

/-- Python `str.replace(",", ".")` as used on numeric texts. -/
def commaToDot (s : String) : String :=
  String.mk (s.toList.map (fun c => if c = ',' then '.' else c))

/-- An ASCII whitespace character, as `str.strip` removes. -/
def isSpaceChar (c : Char) : Bool :=
  c = ' ' ∨ c = '\t' ∨ c = '\n' ∨ c = '\r' ∨ c = '\x0b' ∨ c = '\x0c'

/-- Python `str.strip()`: remove leading and trailing whitespace. -/
def pyStrip (s : String) : String :=
  String.mk (((s.toList.dropWhile isSpaceChar).reverse.dropWhile isSpaceChar).reverse)

/-- Python `str.lower()` on the ASCII strings the engine handles. -/
def asciiLower (s : String) : String := String.mk (s.toList.map Char.toLower)

/-- Python `str.upper()` on the ASCII strings the engine handles. -/
def asciiUpper (s : String) : String := String.mk (s.toList.map Char.toUpper)

/-- Numeric value of a list of decimal digit characters. -/
def digitsToNat (cs : List Char) : Nat :=
  cs.foldl (fun n c => 10 * n + (c.toNat - 48)) 0

/-- Read exactly `n` decimal digits from the front of the character list. -/
def parseFixedDigits (n : Nat) (cs : List Char) : Option (Nat × List Char) :=
  let ds := cs.take n
  if ds.length = n ∧ ds.all Char.isDigit then some (digitsToNat ds, cs.drop n) else none

/-- Expect one specific character at the front of the list. -/
def expectChar (c : Char) : List Char → Option (List Char)
  | [] => none
  | x :: xs => if x = c then some xs else none

/-- Number of days in a month of the proleptic Gregorian calendar, as
validated by `datetime`. -/
def daysInMonth (y m : Nat) : Nat :=
  if m = 2 then
    if y % 4 = 0 ∧ (y % 100 ≠ 0 ∨ y % 400 = 0) then 29 else 28
  else if m = 4 ∨ m = 6 ∨ m = 9 ∨ m = 11 then 30
  else 31

/-- Days from 1970-01-01 to the given civil date (Gregorian), the standard
days-from-civil computation with floor division. -/
def daysFromCivil (y m d : Int) : Int :=
  let y2 : Int := if m ≤ 2 then y - 1 else y
  let era : Int := Int.fdiv y2 400
  let yoe : Int := y2 - era * 400
  let mp : Int := if 2 < m then m - 3 else m + 9
  let doy : Int := Int.fdiv (153 * mp + 2) 5 + d - 1
  let doe : Int := yoe * 365 + Int.fdiv yoe 4 - Int.fdiv yoe 100 + doy
  era * 146097 + doe - 719468

/-- Parse a calendar date `YYYY-MM-DD` from the front of the list,
validating the ranges `datetime` validates. -/
def parseDatePart (cs : List Char) : Option (Int × List Char) :=
  match parseFixedDigits 4 cs with
  | none => none
  | some (y, cs1) =>
    match expectChar '-' cs1 with
    | none => none
    | some cs2 =>
      match parseFixedDigits 2 cs2 with
      | none => none
      | some (m, cs3) =>
        match expectChar '-' cs3 with
        | none => none
        | some cs4 =>
          match parseFixedDigits 2 cs4 with
          | none => none
          | some (d, cs5) =>
            if 1 ≤ m ∧ m ≤ 12 ∧ 1 ≤ d ∧ d ≤ daysInMonth y m then
              some (daysFromCivil (Int.ofNat y) (Int.ofNat m) (Int.ofNat d), cs5)
            else none

/-- Parse an optional fractional-second part `.digits`, yielding its value
in microseconds (digits beyond six are truncated, as `fromisoformat` does). -/
def parseFracPart (cs : List Char) : Option (Nat × List Char) :=
  match cs with
  | '.' :: rest =>
    let ds := rest.takeWhile Char.isDigit
    if ds.isEmpty then none
    else
      let padded := (ds ++ List.replicate 6 '0').take 6
      some (digitsToNat padded, rest.dropWhile Char.isDigit)
  | _ => some (0, cs)

/-- Parse a clock time `HH:MM[:SS[.ffffff]]`, yielding microseconds since
midnight. -/
def parseTimePart (cs : List Char) : Option (Int × List Char) :=
  match parseFixedDigits 2 cs with
  | none => none
  | some (hh, cs1) =>
    match expectChar ':' cs1 with
    | none => none
    | some cs2 =>
      match parseFixedDigits 2 cs2 with
      | none => none
      | some (mi, cs3) =>
        if hh ≤ 23 ∧ mi ≤ 59 then
          match expectChar ':' cs3 with
          | none => some (Int.ofNat ((hh * 3600 + mi * 60) * 1000000), cs3)
          | some cs4 =>
            match parseFixedDigits 2 cs4 with
            | none => none
            | some (ss, cs5) =>
              if ss ≤ 59 then
                match parseFracPart cs5 with
                | none => none
                | some (frac, cs6) =>
                  some (Int.ofNat ((hh * 3600 + mi * 60 + ss) * 1000000 + frac), cs6)
              else none
        else none

/-- Parse an optional UTC offset `+HH:MM`, `+HHMM` or `+HH` (either sign),
yielding its value in microseconds. An empty remainder means no offset. -/
def parseOffsetPart (cs : List Char) : Option (Int × List Char) :=
  match cs with
  | [] => some (0, [])
  | c :: rest =>
    if c = '+' ∨ c = '-' then
      match parseFixedDigits 2 rest with
      | none => none
      | some (oh, cs1) =>
        let cont := fun (om : Nat) (cs2 : List Char) =>
          if oh ≤ 23 ∧ om ≤ 59 then
            let mag : Int := Int.ofNat ((oh * 3600 + om * 60) * 1000000)
            some ((if c = '-' then -mag else mag), cs2)
          else none
        match cs1 with
        | [] => cont 0 []
        | ':' :: cs2 =>
          match parseFixedDigits 2 cs2 with
          | none => none
          | some (om, cs3) => cont om cs3
        | _ =>
          match parseFixedDigits 2 cs1 with
          | none => none
          | some (om, cs3) => cont om cs3
    else none

/-- Parse a full ISO-8601-like timestamp into UTC epoch microseconds:
a date, optionally followed by a `T` or space separator, a clock time and
a numeric UTC offset. This models the strings accepted by the source
(`datetime.fromisoformat` after the `Z` rewrite, together with its two
`strptime` fallback formats, which this grammar subsumes). -/
def parseIso (cs : List Char) : Option Int :=
  match parseDatePart cs with
  | none => none
  | some (days, cs1) =>
    match cs1 with
    | [] => some (days * 86400000000)
    | sep :: cs2 =>
      if sep = 'T' ∨ sep = ' ' then
        match parseTimePart cs2 with
        | none => none
        | some (tod, cs3) =>
          match parseOffsetPart cs3 with
          | none => none
          | some (off, cs4) =>
            if cs4.isEmpty then some (days * 86400000000 + tod - off) else none
      else none

/-- Whether the string ends with the character `Z`. -/
def endsWithZ (s : String) : Bool :=
  match s.toList.reverse with
  | [] => false
  | c :: _ => c = 'Z'

/-- The Timestamp Normalizer `ensure_datetime_utc`: strip the string,
rewrite a trailing `Z` to `+00:00` (Python `s[:-1] + "+00:00"`), parse,
and normalize to UTC (a string without offset is treated as already UTC).
`none` models the `ValueError` the source raises on an unrecognized
string. -/
def ensure_datetime_utc (dtStr : String) : Option Int :=
  let s := pyStrip dtStr
  let s := if endsWithZ s then String.mk s.toList.dropLast ++ "+00:00" else s
  parseIso s.toList

/-- Python `int(text)` as used on sequence and resolution fields: optional
surrounding whitespace, optional sign, decimal digits. -/
def pyInt (s : String) : Option Int :=
  let cs := (pyStrip s).toList
  let core := fun (sign : Int) (ds : List Char) =>
    if ds.isEmpty ∨ ¬ ds.all Char.isDigit then none
    else some (sign * Int.ofNat (digitsToNat ds))
  match cs with
  | '+' :: rest => core 1 rest
  | '-' :: rest => core (-1) rest
  | rest => core 1 rest

/-- Mantissa-and-exponent decimal form: `digits[.digits][e|E[sign]digits]`
with at least one mantissa digit, as accepted by Python `float`. -/
def pyFloatCore (cs : List Char) : Option PyRat :=
  let ip := cs.takeWhile Char.isDigit
  let cs1 := cs.dropWhile Char.isDigit
  let withFrac : Option (List Char × List Char) :=
    match cs1 with
    | '.' :: rest => some (rest.takeWhile Char.isDigit, rest.dropWhile Char.isDigit)
    | _ => some ([], cs1)
  match withFrac with
  | none => none
  | some (fp, cs2) =>
    if ip.isEmpty ∧ fp.isEmpty then none
    else
      let mantNum : Int := Int.ofNat (digitsToNat (ip ++ fp))
      let readExp := fun (sign : Int) (ds : List Char) =>
        if ds.isEmpty ∨ ¬ ds.all Char.isDigit then none
        else some (sign * Int.ofNat (digitsToNat ds))
      let expo : Option Int :=
        match cs2 with
        | [] => some 0
        | e :: rest =>
          if e = 'e' ∨ e = 'E' then
            match rest with
            | '+' :: ds => readExp 1 ds
            | '-' :: ds => readExp (-1) ds
            | ds => readExp 1 ds
          else none
      match expo with
      | none => none
      | some ex =>
        if 0 ≤ ex then some (mkPyRat (mantNum * Int.ofNat (10 ^ ex.toNat)) (10 ^ fp.length))
        else some (mkPyRat mantNum (10 ^ fp.length * 10 ^ (-ex).toNat))

/-- Python `float(text)`: optional surrounding whitespace and sign, then a
decimal form or the case-insensitive words `inf`, `infinity` or `nan`.
`none` models the `ValueError` on any other string. -/
def pyFloat (s : String) : Option EFloat :=
  let t := pyStrip s
  let signed := fun (neg : Bool) (body : String) =>
    let bodyLow := asciiLower body
    if bodyLow = "inf" ∨ bodyLow = "infinity" then
      some (if neg then EFloat.ninf else EFloat.inf)
    else if bodyLow = "nan" then some EFloat.nan
    else
      match pyFloatCore body.toList with
      | none => none
      | some q => some (EFloat.fin (if neg then q.neg else q))
  match t.toList with
  | '+' :: rest => signed false (String.mk rest)
  | '-' :: rest => signed true (String.mk rest)
  | _ => signed false t


/-- A parsed XML element as `xml.etree.ElementTree` presents it: resolved
tag (a namespaced element carries a `\x7buri\x7dLocalName` tag), its
attributes, its text (empty string models a `None` text, which is falsy in
Python exactly like the empty string), its tail text, and its children in
document order. -/
inductive XElem where
  | node : String → List (String × String) → String → String → List XElem → XElem

/-- The resolved tag of the element. -/
def XElem.tag : XElem → String
  | .node t _ _ _ _ => t

/-- The attribute list of the element. -/
def XElem.attrs : XElem → List (String × String)
  | .node _ a _ _ _ => a

/-- The text directly inside the element, before its first child. -/
def XElem.text : XElem → String
  | .node _ _ tx _ _ => tx

/-- The text directly after the closing tag of the element. -/
def XElem.tail : XElem → String
  | .node _ _ _ tl _ => tl

/-- The child elements, in document order. -/
def XElem.children : XElem → List XElem
  | .node _ _ _ _ cs => cs

mutual

/-- All strict descendants of an element in document (preorder) order:
the node set `findall(".//tag")` filters. -/
def XElem.descendants : XElem → List XElem
  | .node _ _ _ _ cs => descList cs

/-- Descendants-or-self of each element of the list, in document order. -/
def descList : List XElem → List XElem
  | [] => []
  | c :: rest => c :: XElem.descendants c ++ descList rest

end

mutual

/-- Concatenated text content of the subtree, modelling
`"".join(root.itertext())`: the text of the element followed by, for each
child, its own text content and then its tail. -/
def XElem.textAll : XElem → String
  | .node _ _ tx _ cs => tx ++ textListAll cs

/-- Concatenated text content and tails of a list of elements. -/
def textListAll : List XElem → String
  | [] => ""
  | c :: rest => XElem.textAll c ++ c.tail ++ textListAll rest

end

/-- First-match lookup in an association list: Python `dict.get` for the
insertion-ordered dicts the engine uses (keys are unique there). -/
def alookup [DecidableEq α] (k : α) : List (α × β) → Option β
  | [] => none
  | p :: ps => if p.1 = k then some p.2 else alookup k ps

/-- Insert-or-adjust on an insertion-ordered association list: if the key
is absent the new entry is appended at the end (Python dict insertion
order), otherwise the entry is updated in place. -/
def upsert [DecidableEq α] (k : α) (f : Option β → β) (l : List (α × β)) : List (α × β) :=
  match alookup k l with
  | none => l ++ [(k, f none)]
  | some _ => l.map (fun p => if p.1 = k then (p.1, f (some p.2)) else p)

/-- Model of `Element.findall(".//" + tag)` for a tag with no colon: all
descendants with that resolved tag, in document order. -/
def findallPlain (root : XElem) (tag : String) : List XElem :=
  root.descendants.filter (fun e => e.tag = tag)

/-- Model of `Element.findall(".//" + tag)` in general: ElementTree
rejects a path whose tag carries a namespace prefix when no prefix map is
passed (`xpath_tokenizer` in `xml/etree/ElementPath.py` raises
`SyntaxError: prefix not found in prefix map`); otherwise all matching
descendants are returned in document order. -/
def etFindAllTag (root : XElem) (tag : String) : Except PyErr (List XElem) :=
  if containsSub tag ":" then .error .syntaxError
  else .ok (findallPlain root tag)

/-- Model of `Element.find(".//" + tag)`: as `etFindAllTag`, returning the
first match. -/
def etFindTag (root : XElem) (tag : String) : Except PyErr (Option XElem) :=
  if containsSub tag ":" then .error .syntaxError
  else .ok (root.descendants.find? (fun e => e.tag = tag))

/-- One reading of one meter at one instant: the `Messwert` dataclass.
The unset sentinel for either field is `EFloat.nan`, exactly as in the
source (`float("nan")`). -/
structure Messwert where
  timestamp : Int
  value : EFloat
  relative : EFloat
deriving DecidableEq, Repr

/-- A meter series: insertion-ordered mapping from instant to reading. -/
abbrev MeterSeries := List (Int × Messwert)

/-- The meter store: insertion-ordered mapping from meter id to series. -/
abbrev AllMeters := List (String × MeterSeries)

/-- Meter id of the export (Einspeisung) meter. -/
def METER_EXPORT_ID : String := "ID735"

/-- Meter id of the import (Bezug) meter. -/
def METER_IMPORT_ID : String := "ID742"

/-- OBIS suffixes classified as import. -/
def OBIS_IMPORT : List String := [":1.8.1", ":1.8.2"]

/-- OBIS suffixes classified as export. -/
def OBIS_EXPORT : List String := [":2.8.1", ":2.8.2"]

/-- Field-level merge of a partial reading into an optional existing
reading: a fresh reading takes `EFloat.nan` for any unsupplied field; an
existing reading has exactly the supplied fields overwritten. -/
def mergeReading (old : Option Messwert) (ts : Int) (value relative : Option EFloat) : Messwert :=
  match old with
  | none => ⟨ts, value.getD .nan, relative.getD .nan⟩
  | some mw => ⟨mw.timestamp, value.getD mw.value, relative.getD mw.relative⟩

/-- The Series Merge Engine `add_or_update_messwert`: look the timestamp
up; insert a fresh reading at the end if absent, otherwise overwrite only
the supplied fields in place. -/
def add_or_update_messwert (series : MeterSeries) (ts : Int) (value relative : Option EFloat) : MeterSeries :=
  upsert ts (fun old => mergeReading old ts value relative) series

/-- One emitted partial reading: meter id, timestamp, and the optional
absolute and relative fields (a parser supplies exactly one of them). -/
structure Upd where
  meter : String
  ts : Int
  value : Option EFloat
  relative : Option EFloat
deriving DecidableEq, Repr

/-- Apply one partial reading to the store:
`meters.setdefault(meter_id, OrderedDict())` followed by
`add_or_update_messwert`. -/
def applyUpd (st : AllMeters) (u : Upd) : AllMeters :=
  upsert u.meter (fun os => add_or_update_messwert (os.getD []) u.ts u.value u.relative) st

/-- Fold a list of partial readings into the store in order. -/
def applyAll (st : AllMeters) (us : List Upd) : AllMeters :=
  us.foldl applyUpd st

/-- An input file, as seen after `ET.parse`: either ill-formed markup
(`ET.ParseError`) or a well-formed element tree. -/
inductive XFile where
  | malformed : XFile
  | wf : XElem → XFile

/-- Resolve the ESL period end timestamp text:
`tp.attrib.get("end") or tp.attrib.get("End")` followed by the
`if not end_attr` skip; `none` means the period is skipped (both a missing
attribute and an empty string are falsy). -/
def eslEndAttr (tp : XElem) : Option String :=
  let resolved : Option String :=
    match alookup "end" tp.attrs with
    | some s => if s ≠ "" then some s else alookup "End" tp.attrs
    | none => alookup "End" tp.attrs
  match resolved with
  | some s => if s = "" then none else some s
  | none => none

/-- Accumulator for one ESL period: running import and export sums and
whether a row of each class was seen. -/
structure EslAcc where
  sumImport : EFloat
  sumExport : EFloat
  importPresent : Bool
  exportPresent : Bool
deriving DecidableEq, Repr

/-- Scan one ESL `ValueRow`: read the `obis` code and the `value` (or
`val`) attribute, skip the row if the value does not parse as a float,
otherwise add it to the import or export sum by OBIS suffix containment
(rows matching neither class are ignored; the `status` attribute is read
but unused in the source). -/
def eslScanRow (acc : EslAcc) (vr : XElem) : EslAcc :=
  let obis := (alookup "obis" vr.attrs).getD ""
  let valText :=
    match alookup "value" vr.attrs with
    | some s => if s ≠ "" then s else (alookup "val" vr.attrs).getD ""
    | none => (alookup "val" vr.attrs).getD ""
  match pyFloat (commaToDot valText) with
  | none => acc
  | some v =>
    if OBIS_IMPORT.any (fun suf => containsSub obis suf) then
      { acc with sumImport := acc.sumImport.add v, importPresent := true }
    else if OBIS_EXPORT.any (fun suf => containsSub obis suf) then
      { acc with sumExport := acc.sumExport.add v, exportPresent := true }
    else acc

/-- Partial readings emitted by one ESL `TimePeriod`: skip the period when
it has no usable end attribute; raise `ValueError` (uncaught in the
source) when the end attribute is not a parseable timestamp; otherwise sum
the nested value rows and emit an import reading and an export reading
when the corresponding class was present. -/
def eslPeriodUpds (tp : XElem) : Except PyErr (List Upd) :=
  match eslEndAttr tp with
  | none => .ok []
  | some endAttr =>
    match ensure_datetime_utc endAttr with
    | none => .error .valueError
    | some ts =>
      let acc := (findallPlain tp "ValueRow").foldl eslScanRow ⟨.fin ⟨0, 1⟩, .fin ⟨0, 1⟩, false, false⟩
      .ok ((if acc.importPresent then [⟨METER_IMPORT_ID, ts, some acc.sumImport, none⟩] else [])
        ++ (if acc.exportPresent then [⟨METER_EXPORT_ID, ts, some acc.sumExport, none⟩] else []))

/-- Partial readings of a list of ESL periods, in order; the first raised
`ValueError` aborts the file (and with it the whole load), exactly as the
uncaught exception does in the source. -/
def eslEmissions : List XElem → Except PyErr (List Upd)
  | [] => .ok []
  | tp :: rest =>
    match eslPeriodUpds tp with
    | .error e => .error e
    | .ok us =>
      match eslEmissions rest with
      | .error e => .error e
      | .ok vs => .ok (us ++ vs)

/-- The Dialect A parser `parse_esl_file`. Ill-formed markup means not
recognized; recognition requires at least one descendant with the literal
unprefixed tag `TimePeriod` (the source performs no namespace-candidate
lookup here); on recognition every period is folded into the store. The
source merges readings into the dict while scanning; computing the
emission list first and folding it afterwards is observationally equal
because a raised exception aborts the whole load, discarding the store. -/
def parse_esl_file (file : XFile) (meters : AllMeters) : Except PyErr (Bool × AllMeters) :=
  match file with
  | .malformed => .ok (false, meters)
  | .wf root =>
    let timePeriods := findallPlain root "TimePeriod"
    if timePeriods.isEmpty then .ok (false, meters)
    else
      match eslEmissions timePeriods with
      | .error e => .error e
      | .ok us => .ok (true, applyAll meters us)

/-- The ordered candidate namespace prefixes the Dialect B parser tries
(`ns_candidates` in the source). -/
def nsCandidates : List String := ["rsm", "h1", "ns0", "ns1", ""]

/-- The search tag for one candidate prefix and one tag suffix:
`p:suffix`, or just `suffix` for the empty prefix. -/
def candTag (p suf : String) : String :=
  if p ≠ "" then p ++ ":" ++ suf else suf

/-- All search tags tried by `find_text`, candidate-prefix major, suffix
minor, as the two nested loops in the source visit them. -/
def candTags (suffixes : List String) : List String :=
  (nsCandidates.map (fun p => suffixes.map (fun suf => candTag p suf))).flatten

/-- Python truthiness of an optional string: false for `None` and for the
empty string. -/
def strTruthy : Option String → Bool
  | some s => s ≠ ""
  | none => false

/-- The candidate loop body of `find_text`: try each search tag in order
with `root.find(".//" + tag)` and return the stripped text of the first
element found with truthy text. -/
def find_text_go (root : XElem) : List String → Except PyErr (Option String)
  | [] => .ok none
  | tag :: rest =>
    match etFindTag root tag with
    | .error e => .error e
    | .ok none => find_text_go root rest
    | .ok (some el) =>
      if el.text ≠ "" then .ok (some (pyStrip el.text)) else find_text_go root rest

/-- The Dialect B helper `find_text`: lenient lookup over the candidate
prefixes and the given tag suffixes. -/
def find_text (root : XElem) (suffixes : List String) : Except PyErr (Option String) :=
  find_text_go root (candTags suffixes)

/-- Model of `re.search(r"ID(\d+)", s)`: the maximal digit run following
the leftmost occurrence of the literal `ID` that is followed by at least
one digit. -/
def idScan : List Char → Option String
  | 'I' :: 'D' :: c :: rest =>
    if c.isDigit then some (String.mk ((c :: rest).takeWhile Char.isDigit))
    else idScan ('D' :: c :: rest)
  | _ :: rest => idScan rest
  | [] => none
termination_by cs => cs.length

/-- The Dialect B resolution step in microseconds: the unit is matched
case-insensitively by prefix (`MIN`, `H`, `S`), any other unit falls back
to minutes. -/
def sdatStepMicros (resUnit : String) (resolution : Int) : Int :=
  let unit := asciiUpper resUnit
  if listStarts "MIN".toList unit.toList then resolution * 60000000
  else if listStarts "H".toList unit.toList then resolution * 3600000000
  else if listStarts "S".toList unit.toList then resolution * 1000000
  else resolution * 60000000

/-- The observation-collection loop: for each candidate prefix, extend the
list with `root.findall(".//" + obs_tag)`. -/
def sdatObsGo (root : XElem) : List String → Except PyErr (List XElem)
  | [] => .ok []
  | p :: rest =>
    match etFindAllTag root (candTag p "Observation") with
    | .error e => .error e
    | .ok found =>
      match sdatObsGo root rest with
      | .error e => .error e
      | .ok more => .ok (found ++ more)

/-- Per-observation field lookup: for each candidate prefix, try
`obs.find(".//" + tag)` and take the stripped text of the first element
found with truthy text. -/
def obsFieldGo (obs : XElem) (fieldName : String) : List String → Except PyErr (Option String)
  | [] => .ok none
  | p :: rest =>
    match etFindTag obs (candTag p fieldName) with
    | .error e => .error e
    | .ok none => obsFieldGo obs fieldName rest
    | .ok (some el) =>
      if el.text ≠ "" then .ok (some (pyStrip el.text)) else obsFieldGo obs fieldName rest

/-- The observation loop of the Dialect B parser: skip an observation
whose sequence or volume text is missing or does not parse; otherwise
merge a relative-only reading at `start + (sequence - 1) * step`. -/
def sdatObsFold (startDt step : Int) (meterId : String) :
    AllMeters → List XElem → Except PyErr AllMeters
  | st, [] => .ok st
  | st, obs :: rest =>
    match obsFieldGo obs "Sequence" nsCandidates with
    | .error e => .error e
    | .ok seqText? =>
      match obsFieldGo obs "Volume" nsCandidates with
      | .error e => .error e
      | .ok volText? =>
        if ¬ strTruthy seqText? ∨ ¬ strTruthy volText? then
          sdatObsFold startDt step meterId st rest
        else
          match pyInt (seqText?.getD ""), pyFloat (commaToDot (volText?.getD "")) with
          | some seq, some vol =>
            let ts := startDt + (seq - 1) * step
            sdatObsFold startDt step meterId
              (applyUpd st ⟨meterId, ts, none, some vol⟩) rest
          | _, _ => sdatObsFold startDt step meterId st rest

/-- `meters.setdefault(meter_id, OrderedDict())`: append an empty series
for the meter when it is absent. -/
def setdefaultStore (st : AllMeters) (meterId : String) : AllMeters :=
  match alookup meterId st with
  | some _ => st
  | none => st ++ [(meterId, [])]

/-- The Dialect B parser `parse_sdat_file`, translated clause by clause:
ill-formed markup is not recognized; a document whose concatenated text
content contains neither `DocumentID` nor `Interval` is not recognized;
then the lenient lookups run (`DocumentID`, the start instant, the
resolution and its unit), the meter id is extracted from the document id
by the `ID` digits pattern, the observation list is collected, an empty
observation list is not recognized, and finally each observation is merged
as a relative-only reading. Every `find` with a prefixed candidate tag
raises `SyntaxError` as ElementTree does. -/
def parse_sdat_file (file : XFile) (meters : AllMeters) : Except PyErr (Bool × AllMeters) :=
  match file with
  | .malformed => .ok (false, meters)
  | .wf root =>
    let textContent := XElem.textAll root
    if ¬ containsSub textContent "DocumentID" ∧ ¬ containsSub textContent "Interval" then
      .ok (false, meters)
    else
      match find_text root ["DocumentID"] with
      | .error e => .error e
      | .ok documentId? =>
        if ¬ strTruthy documentId? then .ok (false, meters)
        else
          match idScan (documentId?.getD "").toList with
          | none => .ok (false, meters)
          | some digits =>
            let meterId := "ID" ++ digits
            match find_text root ["StartDateTime"] with
            | .error e => .error e
            | .ok s1 =>
              match (if strTruthy s1 then Except.ok s1 else find_text root ["StartTime", "Start"]) with
              | .error e => .error e
              | .ok startText? =>
                match find_text root ["EndDateTime"] with
                | .error e => .error e
                | .ok e1 =>
                  match (if strTruthy e1 then Except.ok e1 else find_text root ["EndTime", "End"]) with
                  | .error e => .error e
                  | .ok _endText? =>
                    match find_text root ["Resolution"] with
                    | .error e => .error e
                    | .ok resValue? =>
                      match find_text root ["Unit"] with
                      | .error e => .error e
                      | .ok resUnit? =>
                        if ¬ strTruthy startText? ∨ ¬ strTruthy resValue? ∨ ¬ strTruthy resUnit? then
                          .ok (false, meters)
                        else
                          match ensure_datetime_utc (startText?.getD ""), pyInt (resValue?.getD "") with
                          | some startDt, some resolution =>
                            let step := sdatStepMicros (resUnit?.getD "") resolution
                            match sdatObsGo root nsCandidates with
                            | .error e => .error e
                            | .ok observations =>
                              if observations.isEmpty then .ok (false, meters)
                              else
                                match sdatObsFold startDt step meterId
                                    (setdefaultStore meters meterId) observations with
                                | .error e => .error e
                                | .ok meters2 => .ok (true, meters2)
                          | _, _ => .ok (false, meters)

/-- The Format Router for one file: try Dialect A first; only when it
reports non-recognition run Dialect B. The boolean of the result records
whether the Dialect B parser was run on the file. -/
def routeFile (file : XFile) (meters : AllMeters) : Except PyErr (AllMeters × Bool) :=
  match parse_esl_file file meters with
  | .error e => .error e
  | .ok (true, m1) => .ok (m1, false)
  | .ok (false, m1) =>
    match parse_sdat_file file m1 with
    | .error e => .error e
    | .ok (_, m2) => .ok (m2, true)

/-- Fold every discovered file through the router, in directory-walk
order; the first uncaught exception aborts the load. -/
def foldFiles : AllMeters → List XFile → Except PyErr AllMeters
  | m, [] => .ok m
  | m, f :: rest =>
    match routeFile f m with
    | .error e => .error e
    | .ok (m1, _) => foldFiles m1 rest

/-- Re-sort one series ascending by timestamp:
`OrderedDict(sorted(series.items(), key=lambda kv: kv[0]))`. -/
def sortSeries (s : MeterSeries) : MeterSeries :=
  List.insertionSort (fun a b => a.1 ≤ b.1) s

/-- Re-sort every series of the store, keeping the meter order. -/
def sortStore (m : AllMeters) : AllMeters :=
  m.map (fun p => (p.1, sortSeries p.2))

/-- The ingestion run `load_all_data` over the discovered files: fold each
file through the router, then re-sort every series chronologically.
Directory discovery and the `.xml` filename filter are the trivial I/O
boundary outside the engine; the input here is the list of candidate files
in walk order. -/
def load_all_data (files : List XFile) : Except PyErr AllMeters :=
  match foldFiles [] files with
  | .error e => .error e
  | .ok m => .ok (sortStore m)

/-- The shared label axis of the chart payload: the sorted union of the
timestamps of all series. -/
def collectLabels (meters : AllMeters) : List Int :=
  List.insertionSort (fun a b => a ≤ b) ((meters.foldl (fun acc p => acc ++ p.2.map Prod.fst) []).dedup)

/-- The raw-reading vector of one meter in `build_chartjs_payload`:
`series[ts].value if ts in series else None` for each label. -/
def series_values (meters : AllMeters) (meterId : String) : List (Option EFloat) :=
  let series := (alookup meterId meters).getD []
  (collectLabels meters).map (fun ts => (alookup ts series).map Messwert.value)

/-- The Consumption Derivation `series_diffs`: over the sorted timestamps
of the series, for every index from 1 on, the difference of the absolute
values at the current and previous timestamp; the diff is null when it is
NaN or negative. The lookup default is unreachable because the timestamps
come from the series itself (the source indexes the dict directly). -/
def series_diffs (series : MeterSeries) : List (Int × Option EFloat) :=
  let timestamps := List.insertionSort (fun a b => a ≤ b) (series.map Prod.fst)
  (timestamps.zip timestamps.tail).map (fun pr =>
    let vPrev := ((alookup pr.1 series).map Messwert.value).getD .nan
    let vCurr := ((alookup pr.2 series).map Messwert.value).getD .nan
    let diff := vCurr.sub vPrev
    (pr.2, if ¬ diff.selfEq ∨ diff.lt0 then none else some diff))

/-- The reading of one meter at one timestamp of the store, if present. -/
def getMW (st : AllMeters) (meterId : String) (ts : Int) : Option Messwert :=
  alookup ts ((alookup meterId st).getD [])

/-- The series of one meter in the store (empty when absent):
`meters.get(meter_id, {})`. -/
def seriesOf (st : AllMeters) (meterId : String) : MeterSeries :=
  (alookup meterId st).getD []

/-- Whether a well-formed document carries the Dialect A structural
marker: a descendant with the literal tag `TimePeriod`. -/
def hasTimePeriodTag : XFile → Prop
  | .malformed => False
  | .wf root => (findallPlain root "TimePeriod") ≠ []

/-- Whether the Dialect B text heuristic passes: the concatenated text
content contains `DocumentID` or `Interval`. -/
def sdatHeuristic (root : XElem) : Bool :=
  containsSub (XElem.textAll root) "DocumentID" || containsSub (XElem.textAll root) "Interval"

/-- Whether the router ran the Dialect B parser, read off a router
result (false for an aborted run). -/
def sdatRanFlag : Except PyErr (AllMeters × Bool) → Bool
  | .ok (_, b) => b
  | .error _ => false

/-- Shorthand for a leaf element with a tag and text. -/
def leafEl (tag text : String) : XElem :=
  .node tag [] text "" []

/-- Shorthand for an ESL `ValueRow` with an OBIS code and a value. -/
def vrEl (obis val : String) : XElem :=
  .node "ValueRow" [("obis", obis), ("value", val)] "" "" []

/-- Shorthand for an ESL `TimePeriod` with an end attribute and rows. -/
def tpEl (endT : String) (rows : List XElem) : XElem :=
  .node "TimePeriod" [("end", endT)] "" "" rows

/-- A well-formed ESL document with two periods carrying import and
export rows. -/
def eslDocGood : XElem :=
  .node "ESLBillingData" [] "" ""
    [tpEl "2024-01-01T10:00:00Z" [vrEl "1-1:1.8.1" "100", vrEl "1-1:2.8.1" "50"],
     tpEl "2024-01-01T11:00:00Z" [vrEl "1-1:1.8.1" "120"]]

/-- An ESL document whose period end attribute is not a parseable
timestamp. -/
def eslDocBadTs : XElem :=
  .node "ESLBillingData" [] "" ""
    [tpEl "not-a-timestamp" [vrEl "1-1:1.8.1" "1"]]

/-- An ESL document whose structural elements carry a namespace prefix:
after parsing, ElementTree presents such tags in resolved
`\x7buri\x7dLocalName` form, never as the plain local name. -/
def eslDocNs : XElem :=
  .node "\x7burn:esl\x7dESLBillingData" [] "" ""
    [XElem.node "\x7burn:esl\x7dTimePeriod" [("end", "2024-01-01T10:00:00Z")] "" ""
      [XElem.node "\x7burn:esl\x7dValueRow" [("obis", "1-1:1.8.1"), ("value", "100")] "" "" []]]

/-- An ESL document whose second period carries the value text `inf`,
which Python `float` parses as positive infinity. -/
def eslDocInf : XElem :=
  .node "ESLBillingData" [] "" ""
    [tpEl "2024-01-01T10:00:00Z" [vrEl "1-1:1.8.1" "100"],
     tpEl "2024-01-01T11:00:00Z" [vrEl "1-1:1.8.1" "inf"]]

/-- A complete, well-formed Dialect B document: its text mentions
`Interval` (so the heuristic passes), and it carries a document id with a
meter code, a start instant, a resolution with unit, and one observation
with numeric sequence and volume. -/
def sdatDocFull : XElem :=
  .node "SDATDocument" [] "" ""
    [leafEl "Comment" "Interval data",
     leafEl "DocumentID" "eslevu_BR2294_ID742",
     leafEl "StartDateTime" "2024-01-01T00:00:00Z",
     leafEl "Resolution" "15",
     leafEl "Unit" "MIN",
     XElem.node "Observation" [] "" "" [leafEl "Sequence" "1", leafEl "Volume" "10.5"]]

/-- A well-formed Dialect B document with document id, start, resolution
and unit but zero `Observation` elements. -/
def sdatDocNoObs : XElem :=
  .node "SDATDocument" [] "" ""
    [leafEl "Comment" "Interval data",
     leafEl "DocumentID" "eslevu_BR2294_ID742",
     leafEl "StartDateTime" "2024-01-01T00:00:00Z",
     leafEl "Resolution" "15",
     leafEl "Unit" "MIN"]

/-- 2024-01-01T10:00:00Z in epoch microseconds. -/
def tEpoch10 : Int := 1704103200000000

/-- 2024-01-01T11:00:00Z in epoch microseconds. -/
def tEpoch11 : Int := 1704106800000000

/-- A store holding one reading created from a relative-only partial
reading (as the Dialect B observation loop would create it). -/
def relOnlyStore : AllMeters :=
  applyUpd [] ⟨METER_IMPORT_ID, tEpoch10, none, some (.fin ⟨5, 1⟩)⟩


/-- The import series the good ESL document loads. -/
def eslGoodImportSeries : MeterSeries :=
  [(tEpoch10, ⟨tEpoch10, .fin ⟨100, 1⟩, .nan⟩), (tEpoch11, ⟨tEpoch11, .fin ⟨120, 1⟩, .nan⟩)]

/-- The export series the good ESL document loads. -/
def eslGoodExportSeries : MeterSeries :=
  [(tEpoch10, ⟨tEpoch10, .fin ⟨50, 1⟩, .nan⟩)]

/-- The store produced by loading the good ESL document. -/
def eslGoodStore : AllMeters :=
  [(METER_IMPORT_ID, eslGoodImportSeries), (METER_EXPORT_ID, eslGoodExportSeries)]

/-- The store produced by loading the ESL document with the `inf` value. -/
def eslInfStore : AllMeters :=
  [(METER_IMPORT_ID,
    [(tEpoch10, ⟨tEpoch10, .fin ⟨100, 1⟩, .nan⟩), (tEpoch11, ⟨tEpoch11, .inf, .nan⟩)])]

/-- The effect of one partial reading on the cell of the store addressed
by one meter id and one timestamp. -/
def applyAt (mid : String) (t : Int) (o : Option Messwert) (u : Upd) : Option Messwert :=
  if u.meter = mid ∧ u.ts = t then some (mergeReading o u.ts u.value u.relative) else o

/-- Whether some partial reading of the list addresses the given cell. -/
def cellTouched (mid : String) (t : Int) (us : List Upd) : Bool :=
  us.any (fun u => u.meter = mid ∧ u.ts = t)

/-- One step of the last-write-wins evolution of one field of one cell:
a matching partial reading that supplies the field overwrites the
accumulator, everything else keeps it. -/
def fieldStep (mid : String) (t : Int) (sel : Upd → Option EFloat)
    (acc : Option EFloat) (u : Upd) : Option EFloat :=
  if u.meter = mid ∧ u.ts = t then
    match sel u with
    | some v => some v
    | none => acc
  else acc

/-- The last supplied value of the given field among the partial readings
addressing the given cell (last write wins, unsupplied fields skipped). -/
def lastFieldVal (mid : String) (t : Int) (sel : Upd → Option EFloat) (us : List Upd) : Option EFloat :=
  us.foldl (fieldStep mid t sel) none

/-- Closed form of the evolution of one cell under a list of partial
readings: untouched cells are unchanged; a touched cell keeps its original
timestamp (or takes the cell timestamp when created), and each field holds
the last supplied write, falling back to the original value (`EFloat.nan`
for a created cell). -/
def cellApply (mid : String) (t : Int) (o : Option Messwert) (us : List Upd) : Option Messwert :=
  if cellTouched mid t us then
    some
      ⟨(match o with | some mw => mw.timestamp | none => t),
       (lastFieldVal mid t Upd.value us).getD (match o with | some mw => mw.value | none => .nan),
       (lastFieldVal mid t Upd.relative us).getD (match o with | some mw => mw.relative | none => .nan)⟩
  else o

/-- The effect of one partial reading on the list of meter keys. -/
def meterKeyStep (ks : List String) (u : Upd) : List String :=
  if u.meter ∈ ks then ks else ks ++ [u.meter]

/-- The effect of one partial reading on the timestamp keys of the series
of one meter. -/
def tsKeyStep (mid : String) (ks : List Int) (u : Upd) : List Int :=
  if u.meter = mid then (if u.ts ∈ ks then ks else ks ++ [u.ts]) else ks

/-- Well-formedness of a store, as Python dicts guarantee it: meter keys
are unique, and the timestamp keys of every series are unique. -/
def WFStore (st : AllMeters) : Prop :=
  (st.map Prod.fst).Nodup ∧ ∀ p ∈ st, ((p.2).map Prod.fst).Nodup

/-- Lookup in an association list built by appending: the left list is
consulted first. -/
theorem alookup_append [DecidableEq α] (k : α) (l l₂ : List (α × β)) :
    alookup k (l ++ l₂) =
      match alookup k l with
      | some v => some v
      | none => alookup k l₂ := by
  induction l with
  | nil => simp [alookup]
  | cons p t ih =>
    by_cases h : p.1 = k <;> simp [alookup, h, ih]

/-- A key is absent from an association list exactly when its lookup is
`none`. -/
theorem alookup_eq_none [DecidableEq α] (k : α) (l : List (α × β)) :
    alookup k l = none ↔ k ∉ l.map Prod.fst := by
  induction l with
  | nil => simp [alookup]
  | cons p t ih =>
    by_cases h : p.1 = k
    · subst h
      simp [alookup]
    · simp only [alookup, if_neg h, List.map_cons, List.mem_cons]
      rw [ih]
      constructor
      · intro hn hor
        cases hor with
        | inl he => exact h he.symm
        | inr hm => exact hn hm
      · intro hn hm
        exact hn (Or.inr hm)

/-- A key is present in an association list exactly when its lookup is
`some`. -/
theorem alookup_isSome [DecidableEq α] (k : α) (l : List (α × β)) :
    (alookup k l).isSome = true ↔ k ∈ l.map Prod.fst := by
  rw [Option.isSome_iff_ne_none, ne_eq, alookup_eq_none, not_not]

/-- A successful lookup returns an entry of the list. -/
theorem alookup_mem [DecidableEq α] {k : α} {l : List (α × β)} {v : β}
    (h : alookup k l = some v) : (k, v) ∈ l := by
  induction l with
  | nil => simp [alookup] at h
  | cons p t ih =>
    obtain ⟨a, b⟩ := p
    by_cases hp : a = k
    · subst hp
      simp [alookup] at h
      subst h
      exact List.mem_cons_self _ _
    · simp [alookup, hp] at h
      exact List.mem_cons_of_mem _ (ih h)

/-- Lookup after updating in place every entry with the given key. -/
theorem alookup_map_update [DecidableEq α] (k k' : α) (f : Option β → β) (l : List (α × β)) :
    alookup k' (l.map (fun p => if p.1 = k then (p.1, f (some p.2)) else p)) =
      match alookup k' l with
      | none => none
      | some w => if k' = k then some (f (some w)) else some w := by
  induction l with
  | nil => simp [alookup]
  | cons p t ih =>
    obtain ⟨a, b⟩ := p
    by_cases hk : a = k
    · subst hk
      by_cases hk' : a = k'
      · subst hk'
        simp [alookup]
      · simp [alookup, hk', ih]
    · by_cases hk' : a = k'
      · subst hk'
        simp [alookup, fun h : a = k => hk h]
      · simp [alookup, hk, hk', ih]

/-- Lookup through `upsert`: the updated key reads back the adjusted
value, every other key is untouched. -/
theorem alookup_upsert [DecidableEq α] (k k' : α) (f : Option β → β) (l : List (α × β)) :
    alookup k' (upsert k f l) =
      if k' = k then some (f (alookup k l)) else alookup k' l := by
  unfold upsert
  cases h : alookup k l with
  | none =>
    rw [alookup_append]
    by_cases hk : k' = k
    · subst hk
      simp [h, alookup]
    · cases h2 : alookup k' l <;> simp [h2, alookup, hk, Ne.symm hk]
  | some v =>
    rw [alookup_map_update]
    by_cases hk : k' = k
    · subst hk
      simp [h]
    · cases h2 : alookup k' l <;> simp [h2, hk]

/-- Mapping the in-place update over an association list keeps the key
list unchanged. -/
theorem keys_map_update [DecidableEq α] (k : α) (f : Option β → β) (l : List (α × β)) :
    (l.map (fun p => if p.1 = k then (p.1, f (some p.2)) else p)).map Prod.fst =
      l.map Prod.fst := by
  induction l with
  | nil => simp
  | cons p t ih => by_cases hp : p.1 = k <;> simp [hp, ih]

/-- Keys through `upsert`: unchanged when the key was present, otherwise
the key is appended at the end. -/
theorem keys_upsert [DecidableEq α] (k : α) (f : Option β → β) (l : List (α × β)) :
    (upsert k f l).map Prod.fst =
      if k ∈ l.map Prod.fst then l.map Prod.fst else l.map Prod.fst ++ [k] := by
  unfold upsert
  cases h : alookup k l with
  | none =>
    have hk : k ∉ l.map Prod.fst := (alookup_eq_none k l).mp h
    rw [if_neg hk]
    simp
  | some v =>
    have hk : k ∈ l.map Prod.fst := by
      rw [← alookup_isSome, h]
      rfl
    rw [keys_map_update, if_pos hk]

/-- Extensionality for association lists: equal ordered key lists with
unique keys and equal lookups force equal lists. -/
theorem alist_ext [DecidableEq α] {l l' : List (α × β)}
    (hk : l.map Prod.fst = l'.map Prod.fst)
    (hnd : (l.map Prod.fst).Nodup)
    (hl : ∀ k, alookup k l = alookup k l') : l = l' := by
  induction l generalizing l' with
  | nil =>
    have : l'.map Prod.fst = [] := hk.symm
    exact (List.map_eq_nil_iff.mp this).symm
  | cons p t ih =>
    cases l' with
    | nil => simp at hk
    | cons q t' =>
      simp only [List.map_cons, List.cons.injEq] at hk
      obtain ⟨hfst, htl⟩ := hk
      have hval : p.2 = q.2 := by
        have h1 := hl p.1
        simp [alookup, hfst.symm] at h1
        exact h1
      have hpq : p = q := by
        obtain ⟨a, b⟩ := p
        obtain ⟨c, d⟩ := q
        simp_all
      subst hpq
      simp only [List.map_cons, List.nodup_cons] at hnd
      have htail : ∀ k, alookup k t = alookup k t' := by
        intro k
        by_cases hkp : k = p.1
        · have h1 : alookup k t = none := by
            rw [alookup_eq_none, hkp]
            exact hnd.1
          have h2 : alookup k t' = none := by
            rw [alookup_eq_none, hkp, ← htl]
            exact hnd.1
          rw [h1, h2]
        · have h1 := hl k
          have hp : ¬ p.1 = k := fun h => hkp h.symm
          simp [alookup, hp] at h1
          exact h1
      rw [ih htl hnd.2 htail]

/-- One partial reading changes the cell it addresses by the field merge
and leaves every other cell unchanged. -/
theorem getMW_applyUpd (st : AllMeters) (u : Upd) (mid : String) (t : Int) :
    getMW (applyUpd st u) mid t = applyAt mid t (getMW st mid t) u := by
  unfold applyUpd applyAt
  by_cases hm : u.meter = mid
  · subst hm
    unfold getMW
    rw [alookup_upsert, if_pos rfl]
    unfold add_or_update_messwert
    simp only [Option.getD_some]
    rw [alookup_upsert]
    by_cases ht : u.ts = t
    · subst ht
      simp
    · have ht' : ¬ t = u.ts := fun h => ht h.symm
      rw [if_neg ht']
      simp [ht]
  · unfold getMW
    rw [alookup_upsert, if_neg (fun h => hm h.symm)]
    simp [hm]

/-- The cell evolution under a list of partial readings is the fold of the
single-step cell evolution. -/
theorem getMW_applyAll (us : List Upd) (st : AllMeters) (mid : String) (t : Int) :
    getMW (applyAll st us) mid t = us.foldl (applyAt mid t) (getMW st mid t) := by
  induction us generalizing st with
  | nil => rfl
  | cons u rest ih =>
    show getMW (applyAll (applyUpd st u) rest) mid t = _
    rw [ih, getMW_applyUpd]
    rfl

/-- The field fold from an arbitrary accumulator equals the fold from
`none` with the accumulator as final fallback. -/
theorem fieldFold_shift (mid : String) (t : Int) (sel : Upd → Option EFloat)
    (us : List Upd) (a : Option EFloat) :
    us.foldl (fieldStep mid t sel) a =
      match lastFieldVal mid t sel us with
      | some v => some v
      | none => a := by
  induction us generalizing a with
  | nil => simp [lastFieldVal]
  | cons u rest ih =>
    have h2 : lastFieldVal mid t sel (u :: rest) =
        match lastFieldVal mid t sel rest with
        | some v => some v
        | none => fieldStep mid t sel none u := by
      show (u :: rest).foldl (fieldStep mid t sel) none = _
      rw [List.foldl_cons, ih]
    rw [List.foldl_cons, ih, h2]
    cases hL : lastFieldVal mid t sel rest with
    | some v => rfl
    | none =>
      by_cases hu : u.meter = mid ∧ u.ts = t
      · cases hs : sel u <;> simp [fieldStep, hu, hs]
      · simp [fieldStep, hu]

/-- Unfolding the field fold one partial reading at a time. -/
theorem lastField_cons (mid : String) (t : Int) (sel : Upd → Option EFloat)
    (u : Upd) (rest : List Upd) :
    lastFieldVal mid t sel (u :: rest) =
      match lastFieldVal mid t sel rest with
      | some v => some v
      | none => fieldStep mid t sel none u := by
  show (u :: rest).foldl (fieldStep mid t sel) none = _
  rw [List.foldl_cons, fieldFold_shift]

/-- A list of partial readings none of which addresses the cell supplies
no field write. -/
theorem lastField_none_of_untouched (mid : String) (t : Int) (sel : Upd → Option EFloat)
    (us : List Upd) (h : cellTouched mid t us = false) :
    lastFieldVal mid t sel us = none := by
  induction us with
  | nil => rfl
  | cons u rest ih =>
    unfold cellTouched at h
    simp only [List.any_cons, Bool.or_eq_false_iff] at h
    rw [lastField_cons]
    have hrest : lastFieldVal mid t sel rest = none := ih h.2
    rw [hrest]
    have hu : ¬ (u.meter = mid ∧ u.ts = t) := by
      intro hc
      have := h.1
      simp [hc.1, hc.2] at this
    simp [fieldStep, hu]

/-- The fold of the single-step cell evolution equals the closed form:
the cell keeps its timestamp, and each field holds the last supplied
write, falling back to the original value. -/
theorem foldl_applyAt (mid : String) (t : Int) (us : List Upd) (o : Option Messwert) :
    us.foldl (applyAt mid t) o = cellApply mid t o us := by
  induction us generalizing o with
  | nil => simp [cellApply, cellTouched]
  | cons u rest ih =>
    rw [List.foldl_cons, ih]
    by_cases hu : u.meter = mid ∧ u.ts = t
    · have hstep : applyAt mid t o u = some (mergeReading o u.ts u.value u.relative) := by
        unfold applyAt
        rw [if_pos hu]
      rw [hstep]
      have htouch : cellTouched mid t (u :: rest) = true := by
        unfold cellTouched
        simp only [List.any_cons]
        simp [hu.1, hu.2]
      by_cases hT : cellTouched mid t rest = true
      · unfold cellApply
        rw [if_pos hT, if_pos htouch, lastField_cons, lastField_cons]
        cases hL1 : lastFieldVal mid t Upd.value rest <;>
          cases hL2 : lastFieldVal mid t Upd.relative rest <;>
            cases o <;>
              cases hv : u.value <;>
                cases hr : u.relative <;>
                  simp [mergeReading, fieldStep, hu, hu.2, hv, hr]
      · have hT' : cellTouched mid t rest = false := by
          cases h : cellTouched mid t rest
          · rfl
          · exact absurd h hT
        have hL1 := lastField_none_of_untouched mid t Upd.value rest hT'
        have hL2 := lastField_none_of_untouched mid t Upd.relative rest hT'
        unfold cellApply
        rw [if_neg hT, if_pos htouch, lastField_cons, lastField_cons, hL1, hL2]
        cases o <;>
          cases hv : u.value <;>
            cases hr : u.relative <;>
              simp [mergeReading, fieldStep, hu, hu.2, hv, hr]
    · have hstep : applyAt mid t o u = o := by
        unfold applyAt
        rw [if_neg hu]
      rw [hstep]
      have hsame : cellTouched mid t (u :: rest) = cellTouched mid t rest := by
        unfold cellTouched
        simp only [List.any_cons]
        simp [hu]
      have hfs1 : fieldStep mid t Upd.value none u = none := by simp [fieldStep, hu]
      have hfs2 : fieldStep mid t Upd.relative none u = none := by simp [fieldStep, hu]
      unfold cellApply
      rw [hsame, lastField_cons, lastField_cons, hfs1, hfs2]
      cases lastFieldVal mid t Upd.value rest <;>
        cases lastFieldVal mid t Upd.relative rest <;> rfl

/-- Falling back twice to the same optional value collapses. -/
theorem getD_getD (x : Option α) (d : α) : x.getD (x.getD d) = x.getD d := by
  cases x <;> rfl

/-- The closed-form cell evolution is idempotent: replaying the same
writes over their own result changes nothing. -/
theorem cellApply_idem (mid : String) (t : Int) (o : Option Messwert) (us : List Upd) :
    cellApply mid t (cellApply mid t o us) us = cellApply mid t o us := by
  cases hT : cellTouched mid t us
  · unfold cellApply
    rw [hT]
    simp
  · unfold cellApply
    rw [hT]
    simp [getD_getD]

/-- One partial reading changes the meter key list by the key step. -/
theorem keys_applyUpd (st : AllMeters) (u : Upd) :
    (applyUpd st u).map Prod.fst = meterKeyStep (st.map Prod.fst) u := by
  unfold applyUpd meterKeyStep
  rw [keys_upsert]

/-- The meter key list of a store after a fold of partial readings is the
fold of the key steps. -/
theorem keys_applyAll (us : List Upd) (st : AllMeters) :
    (applyAll st us).map Prod.fst = us.foldl meterKeyStep (st.map Prod.fst) := by
  induction us generalizing st with
  | nil => rfl
  | cons u rest ih =>
    show (applyAll (applyUpd st u) rest).map Prod.fst = _
    rw [ih, keys_applyUpd]
    rfl

/-- Keys of the series merge: unchanged when the timestamp was present,
otherwise the timestamp is appended. -/
theorem keys_add_or_update (s : MeterSeries) (ts : Int) (v r : Option EFloat) :
    (add_or_update_messwert s ts v r).map Prod.fst =
      if ts ∈ s.map Prod.fst then s.map Prod.fst else s.map Prod.fst ++ [ts] := by
  unfold add_or_update_messwert
  rw [keys_upsert]

/-- One partial reading changes the timestamp key list of each meter by
the timestamp key step. -/
theorem seriesKeys_applyUpd (st : AllMeters) (u : Upd) (mid : String) :
    (seriesOf (applyUpd st u) mid).map Prod.fst =
      tsKeyStep mid ((seriesOf st mid).map Prod.fst) u := by
  unfold seriesOf applyUpd tsKeyStep
  rw [alookup_upsert]
  by_cases hm : u.meter = mid
  · subst hm
    rw [if_pos rfl, if_pos rfl]
    simp only [Option.getD_some]
    rw [keys_add_or_update]
  · rw [if_neg (fun h => hm h.symm), if_neg hm]

/-- The timestamp key list of each meter after a fold of partial readings
is the fold of the timestamp key steps. -/
theorem seriesKeys_applyAll (us : List Upd) (st : AllMeters) (mid : String) :
    (seriesOf (applyAll st us) mid).map Prod.fst =
      us.foldl (tsKeyStep mid) ((seriesOf st mid).map Prod.fst) := by
  induction us generalizing st with
  | nil => rfl
  | cons u rest ih =>
    show (seriesOf (applyAll (applyUpd st u) rest) mid).map Prod.fst = _
    rw [ih, seriesKeys_applyUpd]
    rfl

/-- The meter key fold only ever appends keys. -/
theorem meterKeyFold_subset (us : List Upd) (ks : List String) (k : String) (h : k ∈ ks) :
    k ∈ us.foldl meterKeyStep ks := by
  induction us generalizing ks with
  | nil => exact h
  | cons u rest ih =>
    rw [List.foldl_cons]
    apply ih
    unfold meterKeyStep
    split
    · exact h
    · exact List.mem_append_left _ h

/-- After the meter key fold, the meter of every folded reading is a key. -/
theorem meterKeyFold_mem (us : List Upd) (ks : List String) (u : Upd) (h : u ∈ us) :
    u.meter ∈ us.foldl meterKeyStep ks := by
  induction us generalizing ks with
  | nil => cases h
  | cons w rest ih =>
    rw [List.foldl_cons]
    cases h with
    | head =>
      apply meterKeyFold_subset
      unfold meterKeyStep
      split
      · assumption
      · exact List.mem_append_right _ (List.mem_singleton.mpr rfl)
    | tail _ hm => exact ih _ hm

/-- The meter key fold is a no-op when every folded meter is present. -/
theorem meterKeyFold_noop (us : List Upd) (ks : List String) :
    (∀ u ∈ us, u.meter ∈ ks) → us.foldl meterKeyStep ks = ks := by
  induction us with
  | nil => intro _; rfl
  | cons u rest ih =>
    intro h
    rw [List.foldl_cons]
    have hstep : meterKeyStep ks u = ks := by
      unfold meterKeyStep
      rw [if_pos (h u (List.mem_cons_self _ _))]
    rw [hstep]
    exact ih (fun w hw => h w (List.mem_cons_of_mem _ hw))

/-- The timestamp key fold only ever appends keys. -/
theorem tsKeyFold_subset (mid : String) (us : List Upd) (ks : List Int) (k : Int) (h : k ∈ ks) :
    k ∈ us.foldl (tsKeyStep mid) ks := by
  induction us generalizing ks with
  | nil => exact h
  | cons u rest ih =>
    rw [List.foldl_cons]
    apply ih
    unfold tsKeyStep
    split
    · split
      · exact h
      · exact List.mem_append_left _ h
    · exact h

/-- After the timestamp key fold of one meter, the timestamp of every
folded reading of that meter is a key. -/
theorem tsKeyFold_mem (mid : String) (us : List Upd) (ks : List Int) (u : Upd)
    (h : u ∈ us) (hm : u.meter = mid) :
    u.ts ∈ us.foldl (tsKeyStep mid) ks := by
  induction us generalizing ks with
  | nil => cases h
  | cons w rest ih =>
    rw [List.foldl_cons]
    cases h with
    | head =>
      apply tsKeyFold_subset
      unfold tsKeyStep
      rw [if_pos hm]
      split
      · assumption
      · exact List.mem_append_right _ (List.mem_singleton.mpr rfl)
    | tail _ hmem => exact ih _ hmem

/-- The timestamp key fold of one meter is a no-op when every folded
timestamp of that meter is present. -/
theorem tsKeyFold_noop (mid : String) (us : List Upd) (ks : List Int) :
    (∀ u ∈ us, u.meter = mid → u.ts ∈ ks) → us.foldl (tsKeyStep mid) ks = ks := by
  induction us with
  | nil => intro _; rfl
  | cons u rest ih =>
    intro h
    rw [List.foldl_cons]
    have hstep : tsKeyStep mid ks u = ks := by
      unfold tsKeyStep
      split
      · rw [if_pos (h u (List.mem_cons_self _ _) (by assumption))]
      · rfl
    rw [hstep]
    exact ih (fun w hw hwm => h w (List.mem_cons_of_mem _ hw) hwm)

/-- Appending a fresh element keeps a list duplicate-free. -/
theorem nodup_append_single {l : List α} {a : α} (hl : l.Nodup) (ha : a ∉ l) :
    (l ++ [a]).Nodup := by
  rw [List.nodup_append]
  exact ⟨hl, List.nodup_singleton a, by simpa using ha⟩

/-- The series merge keeps the timestamp keys duplicate-free. -/
theorem nodup_add_or_update {s : MeterSeries} (ts : Int) (v r : Option EFloat)
    (h : (s.map Prod.fst).Nodup) :
    ((add_or_update_messwert s ts v r).map Prod.fst).Nodup := by
  rw [keys_add_or_update]
  split
  · exact h
  · exact nodup_append_single h (by assumption)

/-- The empty store is well-formed. -/
theorem WF_nil : WFStore [] :=
  ⟨List.nodup_nil, fun p hp => absurd hp (List.not_mem_nil p)⟩

/-- Applying one partial reading preserves well-formedness of the store. -/
theorem WF_applyUpd {st : AllMeters} (u : Upd) (h : WFStore st) : WFStore (applyUpd st u) := by
  constructor
  · rw [keys_applyUpd]
    unfold meterKeyStep
    split
    · exact h.1
    · exact nodup_append_single h.1 (by assumption)
  · intro p hp
    cases hl : alookup u.meter st with
    | none =>
      have heq : applyUpd st u =
          st ++ [(u.meter, add_or_update_messwert [] u.ts u.value u.relative)] := by
        unfold applyUpd upsert
        rw [hl]
        rfl
      rw [heq, List.mem_append] at hp
      cases hp with
      | inl hin => exact h.2 p hin
      | inr hnew =>
        simp only [List.mem_singleton] at hnew
        subst hnew
        have hn : ((add_or_update_messwert [] u.ts u.value u.relative).map Prod.fst).Nodup := by
          apply nodup_add_or_update
          simp
        simpa using hn
    | some s =>
      have heq : applyUpd st u =
          st.map (fun q =>
            if q.1 = u.meter then (q.1, add_or_update_messwert q.2 u.ts u.value u.relative)
            else q) := by
        unfold applyUpd upsert
        rw [hl]
        rfl
      rw [heq] at hp
      obtain ⟨q, hq, hpq⟩ := List.mem_map.mp hp
      by_cases hqm : q.1 = u.meter
      · rw [if_pos hqm] at hpq
        subst hpq
        exact nodup_add_or_update _ _ _ (h.2 q hq)
      · rw [if_neg hqm] at hpq
        subst hpq
        exact h.2 q hq

/-- Folding partial readings preserves well-formedness of the store. -/
theorem WF_applyAll {st : AllMeters} (us : List Upd) (h : WFStore st) :
    WFStore (applyAll st us) := by
  induction us generalizing st with
  | nil => exact h
  | cons u rest ih =>
    show WFStore (applyAll (applyUpd st u) rest)
    exact ih (WF_applyUpd u h)

/-- Extensionality for stores: equal meter key lists, equal timestamp key
lists and equal cells force equal stores (the left store well-formed). -/
theorem store_ext {st st' : AllMeters} (hWF : WFStore st)
    (h1 : st.map Prod.fst = st'.map Prod.fst)
    (h2 : ∀ mid, (seriesOf st mid).map Prod.fst = (seriesOf st' mid).map Prod.fst)
    (h3 : ∀ mid t, getMW st mid t = getMW st' mid t) : st = st' := by
  apply alist_ext h1 hWF.1
  intro mid
  cases hs : alookup mid st with
  | none =>
    have hnone : alookup mid st' = none := by
      rw [alookup_eq_none, ← h1, ← alookup_eq_none]
      exact hs
    rw [hnone]
  | some s =>
    have hmem : mid ∈ st'.map Prod.fst := by
      rw [← h1, ← alookup_isSome, hs]
      rfl
    have hex : ∃ s', alookup mid st' = some s' := by
      cases hlk : alookup mid st' with
      | none =>
        rw [alookup_eq_none] at hlk
        exact absurd hmem hlk
      | some s' => exact ⟨s', rfl⟩
    obtain ⟨s', hs'⟩ := hex
    rw [hs']
    have hkeys : s.map Prod.fst = s'.map Prod.fst := by
      have hmid := h2 mid
      unfold seriesOf at hmid
      rw [hs, hs'] at hmid
      simpa using hmid
    have hnd : (s.map Prod.fst).Nodup := by
      have := hWF.2 (mid, s) (alookup_mem hs)
      simpa using this
    have hlks : ∀ t, alookup t s = alookup t s' := by
      intro t
      have hmt := h3 mid t
      unfold getMW at hmt
      rw [hs, hs'] at hmt
      simpa using hmt
    rw [alist_ext hkeys hnd hlks]

/-- Replaying a list of partial readings over its own result is a no-op:
the last-write-wins field merge makes re-ingestion idempotent. -/
theorem applyAll_idem {st : AllMeters} (us : List Upd) (hWF : WFStore st) :
    applyAll (applyAll st us) us = applyAll st us := by
  have hW1 : WFStore (applyAll st us) := WF_applyAll us hWF
  have hW2 : WFStore (applyAll (applyAll st us) us) := WF_applyAll us hW1
  apply store_ext hW2
  · rw [keys_applyAll, keys_applyAll]
    apply meterKeyFold_noop
    intro u hu
    exact meterKeyFold_mem us _ u hu
  · intro mid
    rw [seriesKeys_applyAll, seriesKeys_applyAll]
    apply tsKeyFold_noop
    intro u hu hm
    exact tsKeyFold_mem mid us _ u hu hm
  · intro mid t
    simp only [getMW_applyAll, foldl_applyAt]
    exact cellApply_idem mid t (getMW st mid t) us

/-- The first candidate tag the lenient `DocumentID` lookup tries carries
the `rsm` prefix, so the lookup raises `SyntaxError` before any other
candidate is tried. -/
theorem find_text_DocumentID (root : XElem) :
    find_text root ["DocumentID"] = Except.error PyErr.syntaxError := by
  have hc : candTags ["DocumentID"] =
      ["rsm:DocumentID", "h1:DocumentID", "ns0:DocumentID", "ns1:DocumentID", "DocumentID"] := by
    rfl
  unfold find_text
  rw [hc]
  have he : etFindTag root "rsm:DocumentID" = Except.error PyErr.syntaxError := by
    unfold etFindTag
    rw [if_pos (by decide)]
  unfold find_text_go
  rw [he]

/-- The Dialect B parser never succeeds: it reports non-recognition with
an untouched store when the text heuristic fails, and raises
`SyntaxError` otherwise. -/
theorem parse_sdat_result (f : XFile) (st : AllMeters) :
    parse_sdat_file f st = .ok (false, st) ∨
      parse_sdat_file f st = .error PyErr.syntaxError := by
  cases f with
  | malformed => exact Or.inl rfl
  | wf root =>
    by_cases h1 : containsSub (XElem.textAll root) "DocumentID" = true
    · right
      unfold parse_sdat_file
      simp [h1, find_text_DocumentID]
    · by_cases h2 : containsSub (XElem.textAll root) "Interval" = true
      · right
        unfold parse_sdat_file
        simp [h1, h2, find_text_DocumentID]
      · left
        unfold parse_sdat_file
        simp [h1, h2]

/-- A file without the Dialect A structural marker is reported as not
recognized with the store untouched. -/
theorem parse_esl_not_recognized (f : XFile) (m : AllMeters) (h : ¬ hasTimePeriodTag f) :
    parse_esl_file f m = .ok (false, m) := by
  cases f with
  | malformed => rfl
  | wf root =>
    have hnil : findallPlain root "TimePeriod" = [] := by
      by_contra hne
      exact h hne
    unfold parse_esl_file
    simp [hnil]

/-- On a file with the Dialect A structural marker, the parser reduces to
the fold of the period emissions. -/
theorem parse_esl_recognized_shape (root : XElem) (m : AllMeters)
    (h : hasTimePeriodTag (.wf root)) :
    parse_esl_file (.wf root) m =
      match eslEmissions (findallPlain root "TimePeriod") with
      | .error e => .error e
      | .ok us => .ok (true, applyAll m us) := by
  unfold parse_esl_file
  cases hl : findallPlain root "TimePeriod" with
  | nil => exact absurd hl h
  | cons a t =>
    simp [hl]

/-- Dialect A recognition is exactly the presence of a descendant with the
literal unprefixed tag `TimePeriod`: the parser reports non-recognition
(with the store untouched) if and only if no such descendant exists. No
candidate-prefix lookup takes part in this decision. -/
theorem parse_esl_false_iff (f : XFile) (m : AllMeters) :
    parse_esl_file f m = .ok (false, m) ↔ ¬ hasTimePeriodTag f := by
  constructor
  · intro h hTP
    cases f with
    | malformed => exact hTP
    | wf root =>
      rw [parse_esl_recognized_shape root m hTP] at h
      cases he : eslEmissions (findallPlain root "TimePeriod") with
      | error e =>
        rw [he] at h
        exact absurd (h : Except.error e = Except.ok (false, m)) (by simp)
      | ok us =>
        rw [he] at h
        have h2 : (Except.ok ((true, applyAll m us) : Bool × AllMeters) : Except PyErr _) =
            .ok (false, m) := h
        injection h2 with h'
        injection h' with hb hm
        exact Bool.noConfusion hb
  · exact parse_esl_not_recognized f m

/-- A non-recognition result of Dialect A always carries the untouched
store. -/
theorem parse_esl_false_store {f : XFile} {m m1 : AllMeters}
    (h : parse_esl_file f m = .ok (false, m1)) : m1 = m := by
  cases f with
  | malformed =>
    have h2 : (Except.ok ((false, m) : Bool × AllMeters) : Except PyErr _) = .ok (false, m1) := h
    injection h2 with h'
    injection h' with hb hm
    exact hm.symm
  | wf root =>
    by_cases hTP : hasTimePeriodTag (.wf root)
    · rw [parse_esl_recognized_shape root m hTP] at h
      cases he : eslEmissions (findallPlain root "TimePeriod") with
      | error e =>
        rw [he] at h
        exact absurd (h : Except.error e = Except.ok (false, m1)) (by simp)
      | ok us =>
        rw [he] at h
        have h2 : (Except.ok ((true, applyAll m us) : Bool × AllMeters) : Except PyErr _) =
            .ok (false, m1) := h
        injection h2 with h'
        injection h' with hb hm
        exact Bool.noConfusion hb
    · rw [parse_esl_not_recognized _ _ hTP] at h
      injection h with h'
      injection h' with hb hm
      exact hm.symm

/-- When Dialect A reports success the router stops: the result is the
Dialect A store and the Dialect B parser is not run. -/
theorem routeFile_eslTrue (f : XFile) (m m' : AllMeters)
    (h : parse_esl_file f m = .ok (true, m')) : routeFile f m = .ok (m', false) := by
  unfold routeFile
  rw [h]

/-- When Dialect A reports non-recognition the router falls through to
Dialect B. -/
theorem routeFile_esl_false (f : XFile) (m m1 : AllMeters)
    (h : parse_esl_file f m = .ok (false, m1)) :
    routeFile f m =
      match parse_sdat_file f m1 with
      | .error e => .error e
      | .ok (_, m2) => .ok (m2, true) := by
  unfold routeFile
  rw [h]

/-- When Dialect A raises, the router propagates the exception and the
Dialect B parser is not run. -/
theorem routeFile_esl_error (f : XFile) (m : AllMeters) (e : PyErr)
    (h : parse_esl_file f m = .error e) : routeFile f m = .error e := by
  unfold routeFile
  rw [h]

/-- On a document carrying the Dialect A structural marker, the Dialect B
parser is never run: the router either returns the Dialect A result or
propagates the Dialect A exception. -/
theorem routeFile_hasTP_no_sdat (root : XElem) (m : AllMeters)
    (h : hasTimePeriodTag (.wf root)) :
    sdatRanFlag (routeFile (.wf root) m) = false := by
  cases he : eslEmissions (findallPlain root "TimePeriod") with
  | error e =>
    have h1 : parse_esl_file (.wf root) m = .error e := by
      rw [parse_esl_recognized_shape root m h, he]
    rw [routeFile_esl_error _ _ _ h1]
    rfl
  | ok us =>
    have h1 : parse_esl_file (.wf root) m = .ok (true, applyAll m us) := by
      rw [parse_esl_recognized_shape root m h, he]
    rw [routeFile_eslTrue _ _ _ h1]
    rfl

/-- Routing the same file into the store it produced from a fresh store
reproduces that store exactly: per-file re-ingestion is idempotent. -/
theorem route_refold (f : XFile) (m : AllMeters) (b : Bool)
    (h : routeFile f [] = .ok (m, b)) : routeFile f m = .ok (m, b) := by
  cases hesl : parse_esl_file f ([] : AllMeters) with
  | error e =>
    rw [routeFile_esl_error _ _ _ hesl] at h
    exact absurd (h : Except.error e = Except.ok (m, b)) (by simp)
  | ok p =>
    obtain ⟨bb, m1⟩ := p
    cases bb with
    | true =>
      -- Dialect A succeeded on the fresh store
      cases f with
      | malformed =>
        have h2 : (Except.ok ((false, ([] : AllMeters)) : Bool × AllMeters) : Except PyErr _) =
            .ok (true, m1) := hesl
        injection h2 with h'
        injection h' with hb hm
        exact Bool.noConfusion hb
      | wf root =>
        by_cases hTP : hasTimePeriodTag (.wf root)
        · cases he : eslEmissions (findallPlain root "TimePeriod") with
          | error e =>
            have h1 : parse_esl_file (.wf root) ([] : AllMeters) = .error e := by
              rw [parse_esl_recognized_shape root _ hTP, he]
            rw [h1] at hesl
            exact absurd (hesl : Except.error e = Except.ok (true, m1)) (by simp)
          | ok us =>
            have h1 : parse_esl_file (.wf root) ([] : AllMeters) = .ok (true, applyAll [] us) := by
              rw [parse_esl_recognized_shape root _ hTP, he]
            rw [routeFile_eslTrue _ _ _ h1] at h
            have h2 : (Except.ok ((applyAll [] us, false) : AllMeters × Bool) : Except PyErr _) =
                .ok (m, b) := h
            injection h2 with h'
            injection h' with hm hb
            subst hm
            subst hb
            have h4 : parse_esl_file (.wf root) (applyAll [] us) =
                .ok (true, applyAll (applyAll [] us) us) := by
              rw [parse_esl_recognized_shape root _ hTP, he]
            have h5 := routeFile_eslTrue _ _ _ h4
            rw [applyAll_idem us WF_nil] at h5
            exact h5
        · rw [parse_esl_not_recognized _ _ hTP] at hesl
          have h2 : (Except.ok ((false, ([] : AllMeters)) : Bool × AllMeters) : Except PyErr _) =
              .ok (true, m1) := hesl
          injection h2 with h'
          injection h' with hb hm
          exact Bool.noConfusion hb
    | false =>
      -- Dialect A reported non-recognition; the store is untouched
      have hm1 : m1 = [] := parse_esl_false_store hesl
      subst hm1
      rw [routeFile_esl_false _ _ _ hesl] at h
      cases hsd : parse_sdat_file f ([] : AllMeters) with
      | error e =>
        rw [hsd] at h
        exact absurd (h : Except.error e = Except.ok (m, b)) (by simp)
      | ok q =>
        obtain ⟨bs, m2⟩ := q
        rw [hsd] at h
        have h2 : (Except.ok ((m2, true) : AllMeters × Bool) : Except PyErr _) = .ok (m, b) := h
        injection h2 with h'
        injection h' with hm hb
        subst hm
        subst hb
        -- the Dialect B parser never succeeds, so the store is untouched
        have hm2 : m2 = [] := by
          cases parse_sdat_result f ([] : AllMeters) with
          | inl hok =>
            rw [hok] at hsd
            have h3 : (Except.ok ((false, ([] : AllMeters)) : Bool × AllMeters) : Except PyErr _) =
                .ok (bs, m2) := hsd
            injection h3 with h'
            injection h' with hb2 hm2
            exact hm2.symm
          | inr herr =>
            rw [herr] at hsd
            exact absurd (hsd.symm : Except.ok (bs, m2) = Except.error PyErr.syntaxError) (by simp)
        subst hm2
        rw [routeFile_esl_false _ _ _ hesl, hsd]

/-- Dialect A preserves well-formedness of the store. -/
theorem parse_esl_WF {f : XFile} {m m' : AllMeters} {b : Bool}
    (hWF : WFStore m) (h : parse_esl_file f m = .ok (b, m')) : WFStore m' := by
  cases f with
  | malformed =>
    have h2 : (Except.ok ((false, m) : Bool × AllMeters) : Except PyErr _) = .ok (b, m') := h
    injection h2 with h'
    injection h' with hb hm
    rw [← hm]
    exact hWF
  | wf root =>
    by_cases hTP : hasTimePeriodTag (.wf root)
    · rw [parse_esl_recognized_shape root m hTP] at h
      cases he : eslEmissions (findallPlain root "TimePeriod") with
      | error e =>
        rw [he] at h
        exact absurd (h : Except.error e = Except.ok (b, m')) (by simp)
      | ok us =>
        rw [he] at h
        have h2 : (Except.ok ((true, applyAll m us) : Bool × AllMeters) : Except PyErr _) =
            .ok (b, m') := h
        injection h2 with h'
        injection h' with hb hm
        rw [← hm]
        exact WF_applyAll us hWF
    · rw [parse_esl_not_recognized _ _ hTP] at h
      injection h with h'
      injection h' with hb hm
      rw [← hm]
      exact hWF

/-- The router preserves well-formedness of the store. -/
theorem routeFile_WF {f : XFile} {m m' : AllMeters} {b : Bool}
    (hWF : WFStore m) (h : routeFile f m = .ok (m', b)) : WFStore m' := by
  cases hesl : parse_esl_file f m with
  | error e =>
    rw [routeFile_esl_error _ _ _ hesl] at h
    exact absurd (h : Except.error e = Except.ok (m', b)) (by simp)
  | ok p =>
    obtain ⟨bb, m1⟩ := p
    cases bb with
    | true =>
      rw [routeFile_eslTrue _ _ _ hesl] at h
      have h2 : (Except.ok ((m1, false) : AllMeters × Bool) : Except PyErr _) = .ok (m', b) := h
      injection h2 with h'
      injection h' with hm hb
      rw [← hm]
      exact parse_esl_WF hWF hesl
    | false =>
      have hm1 : m1 = m := parse_esl_false_store hesl
      subst hm1
      rw [routeFile_esl_false _ _ _ hesl] at h
      cases parse_sdat_result f m1 with
      | inl hok =>
        rw [hok] at h
        have h2 : (Except.ok ((m1, true) : AllMeters × Bool) : Except PyErr _) = .ok (m', b) := h
        injection h2 with h'
        injection h' with hm hb
        rw [← hm]
        exact hWF
      | inr herr =>
        rw [herr] at h
        exact absurd (h : Except.error PyErr.syntaxError = Except.ok (m', b)) (by simp)

/-- The file fold preserves well-formedness of the store. -/
theorem foldFiles_WF {files : List XFile} {m m' : AllMeters}
    (hWF : WFStore m) (h : foldFiles m files = .ok m') : WFStore m' := by
  induction files generalizing m with
  | nil =>
    have h2 : (Except.ok m : Except PyErr AllMeters) = .ok m' := h
    injection h2 with hm
    rw [← hm]
    exact hWF
  | cons f rest ih =>
    unfold foldFiles at h
    cases hr : routeFile f m with
    | error e =>
      rw [hr] at h
      exact absurd (h : Except.error e = Except.ok m') (by simp)
    | ok p =>
      obtain ⟨m1, b⟩ := p
      rw [hr] at h
      exact ih (routeFile_WF hWF hr) (h : foldFiles m1 rest = .ok m')

/-- Sorting a series with duplicate-free timestamps yields strictly
ascending timestamps. -/
theorem sortSeries_pairwise {s : MeterSeries} (h : (s.map Prod.fst).Nodup) :
    ((sortSeries s).map Prod.fst).Pairwise (· < ·) := by
  have hperm : (sortSeries s).Perm s := List.perm_insertionSort _ s
  have hnd : ((sortSeries s).map Prod.fst).Nodup := ((hperm.map Prod.fst).nodup_iff).mpr h
  haveI : IsTotal (Int × Messwert) (fun a b => a.1 ≤ b.1) := ⟨fun a b => le_total a.1 b.1⟩
  haveI : IsTrans (Int × Messwert) (fun a b => a.1 ≤ b.1) :=
    ⟨fun _ _ _ hab hbc => le_trans hab hbc⟩
  have hsorted2 : List.Sorted (fun a b : Int × Messwert => a.1 ≤ b.1) (sortSeries s) :=
    List.sorted_insertionSort (fun a b => a.1 ≤ b.1) s
  have hne : (sortSeries s).Pairwise (fun a b => a.1 ≠ b.1) := List.pairwise_map.mp hnd
  rw [List.pairwise_map]
  exact (hsorted2.and hne).imp (fun hab => lt_of_le_of_ne hab.1 hab.2)

/-- Every series of a completed load has strictly ascending timestamps. -/
theorem load_series_sorted (files : List XFile) (m : AllMeters) (mid : String) (s : MeterSeries)
    (h : load_all_data files = .ok m) (hmem : (mid, s) ∈ m) :
    (s.map Prod.fst).Pairwise (· < ·) := by
  unfold load_all_data at h
  cases hf : foldFiles [] files with
  | error e =>
    rw [hf] at h
    exact absurd (h : Except.error e = Except.ok m) (by simp)
  | ok m0 =>
    rw [hf] at h
    have h2 : (Except.ok (sortStore m0) : Except PyErr AllMeters) = .ok m := h
    injection h2 with hm
    rw [← hm] at hmem
    unfold sortStore at hmem
    obtain ⟨q, hq, hpq⟩ := List.mem_map.mp hmem
    have hWF0 : WFStore m0 := foldFiles_WF WF_nil hf
    have hnd : (q.2.map Prod.fst).Nodup := hWF0.2 q hq
    have hs : s = sortSeries q.2 := by
      have := congrArg Prod.snd hpq
      simpa using this.symm
    rw [hs]
    exact sortSeries_pairwise hnd

/-- The label fold of the payload collects the timestamp keys of every
series. -/
theorem foldl_concatMap (g : α → List β) (l : List α) (a : List β) :
    l.foldl (fun acc p => acc ++ g p) a = a ++ (l.map g).flatten := by
  induction l generalizing a with
  | nil => simp
  | cons p t ih => simp [ih]

/-- Every timestamp holding a reading of some meter is a payload label. -/
theorem mem_collectLabels {st : AllMeters} {mid : String} {t : Int}
    (h : (getMW st mid t).isSome = true) : t ∈ collectLabels st := by
  unfold getMW at h
  cases hm : alookup mid st with
  | none =>
    rw [hm] at h
    simp [alookup] at h
  | some s =>
    rw [hm] at h
    simp only [Option.getD_some] at h
    cases ht : alookup t s with
    | none =>
      rw [ht] at h
      simp at h
    | some mw =>
      have hts : t ∈ s.map Prod.fst := by
        rw [← alookup_isSome, ht]
        rfl
      have hsmem : (mid, s) ∈ st := alookup_mem hm
      unfold collectLabels
      have hperm := List.perm_insertionSort (fun a b : Int => a ≤ b)
        ((st.foldl (fun acc p => acc ++ p.2.map Prod.fst) []).dedup)
      rw [hperm.mem_iff, List.mem_dedup, foldl_concatMap]
      rw [List.nil_append, List.mem_flatten]
      refine ⟨s.map Prod.fst, ?_, hts⟩
      rw [List.mem_map]
      exact ⟨(mid, s), hsmem, rfl⟩

/-- C1: the claim states that a MALFORMED_TIMESTAMP raised while parsing
an observation or period is caught by the parser and converted into
skipping, so that `load_all_data` never raises for any file contents. The
code contradicts this: `parse_esl_file` calls `ensure_datetime_utc` on
the period end attribute without a try/except, so a Dialect A file whose
period end is an unparseable timestamp string raises `ValueError` through
`load_all_data` and aborts the whole ingestion run. -/
theorem c1_malformed_esl_timestamp_is_fatal :
    parse_esl_file (.wf eslDocBadTs) [] = .error PyErr.valueError ∧
      load_all_data [.wf eslDocBadTs] = .error PyErr.valueError :=
  ⟨by rfl, by rfl⟩

/-- C2 counterexample: an ESL document whose TimePeriod and ValueRow
elements carry a namespace prefix (hence resolved, brace-qualified tags
after parsing) is not recognized by the Dialect A parser and none of its
readings are extracted; the router falls through to Dialect B instead.
This refutes the claim that Dialect A lookup tolerates namespace prefixes
by trying a candidate list. -/
theorem c2_namespaced_esl_not_recognized :
    parse_esl_file (.wf eslDocNs) [] = .ok (false, []) ∧
      routeFile (.wf eslDocNs) [] = .ok ([], true) :=
  ⟨by rfl, by rfl⟩

/-- C2 amended: Dialect A recognition tries no candidate namespace
prefixes at all; it is exactly the presence of a descendant with the
literal unprefixed tag `TimePeriod`, so a namespaced ESL document is
reported as not recognized with the store untouched. -/
theorem c2_amended_dialect_a_unprefixed_only (f : XFile) (m : AllMeters) :
    parse_esl_file f m = .ok (false, m) ↔ ¬ hasTimePeriodTag f :=
  parse_esl_false_iff f m

/-- C3 counterexample: at a timestamp observed only through a relative
volume, the raw-reading payload reports the NaN sentinel stored in the
unsupplied absolute field, not an explicit null: the label position holds
`some EFloat.nan`, which is not `none`. -/
theorem c3_relative_only_payload_not_null :
    series_values relOnlyStore METER_IMPORT_ID = [some EFloat.nan] ∧
      series_values relOnlyStore METER_IMPORT_ID ≠ [none] :=
  ⟨by rfl, by decide⟩

/-- C3 amended: a reading created by a relative-only partial reading
stores `EFloat.nan` in the unsupplied absolute field (a sentinel distinct
from a real zero, but NaN rather than an explicit unset marker), and the
raw-reading payload expression at that label consequently yields
`some EFloat.nan`, not null; the label itself is present in the payload
label axis. -/
theorem c3_amended_nan_sentinel (st : AllMeters) (mid : String) (t : Int) (r : EFloat)
    (h : getMW st mid t = none) :
    getMW (applyUpd st ⟨mid, t, none, some r⟩) mid t = some ⟨t, EFloat.nan, r⟩ ∧
      (alookup t (seriesOf (applyUpd st ⟨mid, t, none, some r⟩) mid)).map Messwert.value =
        some EFloat.nan ∧
      some EFloat.nan ∈ series_values (applyUpd st ⟨mid, t, none, some r⟩) mid := by
  have h1 : getMW (applyUpd st ⟨mid, t, none, some r⟩) mid t = some ⟨t, EFloat.nan, r⟩ := by
    rw [getMW_applyUpd]
    unfold applyAt
    rw [if_pos ⟨rfl, rfl⟩, h]
    rfl
  have h2 : (alookup t (seriesOf (applyUpd st ⟨mid, t, none, some r⟩) mid)).map Messwert.value =
      some EFloat.nan := by
    have : alookup t (seriesOf (applyUpd st ⟨mid, t, none, some r⟩) mid) =
        getMW (applyUpd st ⟨mid, t, none, some r⟩) mid t := rfl
    rw [this, h1]
    rfl
  refine ⟨h1, h2, ?_⟩
  have hlab : t ∈ collectLabels (applyUpd st ⟨mid, t, none, some r⟩) := by
    apply mem_collectLabels
    rw [h1]
    rfl
  unfold series_values
  rw [List.mem_map]
  exact ⟨t, hlab, h2⟩

/-- C4: the router attempts Dialect A first; when Dialect A reports
success the result is the Dialect A store and the Dialect B parser is not
run, and on any document carrying the Dialect A structural marker the
Dialect B parser is never run (the router returns the Dialect A result or
propagates the Dialect A exception). -/
theorem c4_dialect_a_first_excludes_b :
    (∀ (f : XFile) (m m' : AllMeters), parse_esl_file f m = .ok (true, m') →
        routeFile f m = .ok (m', false)) ∧
      (∀ (root : XElem) (m : AllMeters), hasTimePeriodTag (.wf root) →
        sdatRanFlag (routeFile (.wf root) m) = false) :=
  ⟨routeFile_eslTrue, routeFile_hasTP_no_sdat⟩

/-- C5: the claim states the diff is explicitly null whenever the result
is not a finite number. The code only suppresses NaN and negative diffs:
an absolute series reachable from an ESL file whose value text is `inf`
produces a positive-infinite diff that is reported as a value, not null,
contradicting the docstring of `build_consumption_payload` (negative or
non-finite diffs are treated as missing). -/
theorem c5_infinite_diff_not_null :
    load_all_data [.wf eslDocInf] = .ok eslInfStore ∧
      series_diffs (seriesOf eslInfStore METER_IMPORT_ID) =
        [(tEpoch11, some EFloat.inf)] :=
  ⟨by rfl, by rfl⟩

/-- C6: every meter series of a completed load has strictly ascending
timestamps, whatever the insertion order during folding was. -/
theorem c6_series_strictly_ascending (files : List XFile) (m : AllMeters)
    (mid : String) (s : MeterSeries)
    (h : load_all_data files = .ok m) (hmem : (mid, s) ∈ m) :
    (s.map Prod.fst).Pairwise (· < ·) :=
  load_series_sorted files m mid s h hmem

/-- C6 witness: loading the good ESL document succeeds and the import
series of the result has strictly ascending timestamps. -/
theorem c6_witness : (eslGoodImportSeries.map Prod.fst).Pairwise (· < ·) :=
  c6_series_strictly_ascending [.wf eslDocGood] eslGoodStore METER_IMPORT_ID
    eslGoodImportSeries (by rfl) (List.mem_cons_self _ _)

/-- C7: two textual timestamps denoting the same instant in different
zones collide to the identical UTC series key, and the value parses
successfully. -/
theorem c7_timezone_collision :
    ensure_datetime_utc "2024-01-01T00:00:00Z" =
        ensure_datetime_utc "2024-01-01T01:00:00+01:00" ∧
      (ensure_datetime_utc "2024-01-01T00:00:00Z").isSome = true :=
  ⟨by rfl, by rfl⟩

/-- C8: the claim states each valid Dialect B observation is emitted at
start + (sequence - 1) * step, with bad observations skipped
individually. The code never reaches the observation loop: on every
well-formed document that passes the text heuristic, the first lenient
lookup tries the candidate tag `rsm:DocumentID`, and ElementTree raises
`SyntaxError` for a prefixed path without a namespace map, so the parser
raises instead of emitting any observation. -/
theorem c8_sdat_raises_before_observations (root : XElem) (m : AllMeters)
    (h : sdatHeuristic root = true) :
    parse_sdat_file (.wf root) m = .error PyErr.syntaxError := by
  unfold sdatHeuristic at h
  rw [Bool.or_eq_true] at h
  unfold parse_sdat_file
  rcases h with h1 | h2
  · simp [h1, find_text_DocumentID]
  · simp [h2, find_text_DocumentID]

/-- C8 witness: a complete, well-formed Dialect B document with one valid
observation passes the heuristic and the parser raises. -/
theorem c8_witness :
    sdatHeuristic sdatDocFull = true ∧
      parse_sdat_file (.wf sdatDocFull) [] = .error PyErr.syntaxError :=
  ⟨by rfl, c8_sdat_raises_before_observations sdatDocFull [] (by rfl)⟩

/-- C9: routing the same file a second time into the store produced by
routing it once into a fresh store yields that store unchanged:
re-ingesting one file is idempotent. -/
theorem c9_refold_idempotent (f : XFile) (m : AllMeters) (b : Bool)
    (h : routeFile f [] = .ok (m, b)) : routeFile f m = .ok (m, b) :=
  route_refold f m b h

/-- C9 witness: refolding the good ESL document over its own load result
reproduces that result. -/
theorem c9_witness : routeFile (.wf eslDocGood) eslGoodStore = .ok (eslGoodStore, false) :=
  c9_refold_idempotent (.wf eslDocGood) eslGoodStore false (by rfl)

/-- C10: the claim states that a well-formed Dialect B document with a
document id, start, resolution and unit but zero Observation elements is
reported as not recognized. On such a document that passes the text
heuristic the parser instead raises `SyntaxError` at the first prefixed
candidate lookup, before the zero-observation check is ever reached. -/
theorem c10_zero_observations_raises :
    parse_sdat_file (.wf sdatDocNoObs) [] = .error PyErr.syntaxError ∧
      parse_sdat_file (.wf sdatDocNoObs) [] ≠ .ok (false, []) := by
  have h1 : parse_sdat_file (.wf sdatDocNoObs) [] = .error PyErr.syntaxError := by rfl
  refine ⟨h1, ?_⟩
  rw [h1]
  intro hcontra
  exact Except.noConfusion hcontra

/-- C3 amended witness: creating a reading from a relative-only partial
reading in the empty store stores the NaN sentinel in the absolute field
and the payload expression at that label yields NaN, not null. -/
theorem c3_amended_witness :
    getMW (applyUpd [] ⟨METER_IMPORT_ID, tEpoch10, none, some (EFloat.fin ⟨5, 1⟩)⟩)
        METER_IMPORT_ID tEpoch10 = some ⟨tEpoch10, EFloat.nan, EFloat.fin ⟨5, 1⟩⟩ ∧
      (alookup tEpoch10
          (seriesOf (applyUpd [] ⟨METER_IMPORT_ID, tEpoch10, none, some (EFloat.fin ⟨5, 1⟩)⟩)
            METER_IMPORT_ID)).map Messwert.value = some EFloat.nan ∧
      some EFloat.nan ∈
        series_values (applyUpd [] ⟨METER_IMPORT_ID, tEpoch10, none, some (EFloat.fin ⟨5, 1⟩)⟩)
          METER_IMPORT_ID :=
  c3_amended_nan_sentinel [] METER_IMPORT_ID tEpoch10 (EFloat.fin ⟨5, 1⟩) (by rfl)

/-- C4 witness: on the good ESL document (which carries a TimePeriod
marker) the router returns the Dialect A result and the Dialect B parser
is not run. -/
theorem c4_witness :
    routeFile (.wf eslDocGood) [] = .ok (eslGoodStore, false) ∧
      sdatRanFlag (routeFile (.wf eslDocGood) []) = false := by
  have hTP : hasTimePeriodTag (.wf eslDocGood) := by
    show findallPlain eslDocGood "TimePeriod" ≠ []
    intro hnil
    have h2 : (findallPlain eslDocGood "TimePeriod").length = 0 := by
      rw [hnil]
      rfl
    have h3 : (findallPlain eslDocGood "TimePeriod").length = 2 := by rfl
    omega
  constructor
  · exact c4_dialect_a_first_excludes_b.1 (.wf eslDocGood) [] eslGoodStore (by rfl)
  · exact c4_dialect_a_first_excludes_b.2 eslDocGood [] hTP
